import Mathlib

/-!
Shallow embedding of `src/main.py` of the IFRI repository.

The script has two core functions:

* `get_valuation_data` fetches, per portfolio entry, a historical series of
  daily (trade_date, pe_ttm, pb) valuation points and reduces it to a summary
  row holding the current ratios (taken from the first row of the fetched
  series, `df_hist.iloc[0]`) and, for each window of 3, 5 and 10 years and
  each ratio, the percentile rank of the current ratio among the valid
  (non-null, strictly positive) points of the window.  The whole loop runs
  inside one `try/except`: an exception raised by the upstream call for any
  entry makes the function return an empty DataFrame.  An entry whose fetched
  series is empty is skipped with a warning and the loop continues.

* `calculate_allocation` maps each summary row's selected percentile column
  to a weight, and splits the total investment amount proportionally to the
  weights, rounding each amount to 2 decimal places.  When the weights sum to
  zero it emits a warning and sets every amount to 0.

Machine reals (pandas float64) are embedded as ℚ; `NaN` cells as `none`
(a comparison against a missing value is `false`, as in pandas); trade dates
as ℤ (days, so that `datetime.now() - timedelta(days=365*years)` becomes
`today - 365 * years`).  DataFrames are embedded as a list of column names
plus a list of rows, a row being an association list from column name to
cell, looked up positionally; the script only ever adds columns that are not
yet present, so pandas column assignment is embedded as appending the new
(key, cell) pair to each row.
-/

namespace IFRI

/-- One point of the fetched historical series: one row of `df_hist`
(`trade_date`, `pe_ttm`, `pb`), with nullable ratios. -/
structure VPoint where
  trade_date : ℤ
  pe_ttm : Option ℚ
  pb : Option ℚ
  deriving DecidableEq

/-- A DataFrame cell.  `str` embeds plain strings, `cur` the formatted
current-ratio strings `f"{x:.2f}"`, `pct` the formatted percentile strings
`f"{p:.2f}%"` (carrying the numeric value the string denotes), `na` the
literal string `"N/A"`, and `num` numeric cells. -/
inductive Cell where
  | str : String → Cell
  | cur : Option ℚ → Cell
  | pct : ℚ → Cell
  | na : Cell
  | num : ℚ → Cell
  deriving DecidableEq

/-- A DataFrame row: association list from column name to cell. -/
abbrev Row := List (String × Cell)

/-- A DataFrame: column names plus rows. -/
structure Frame where
  cols : List String
  rows : List Row
  deriving DecidableEq

/-- One portfolio entry's details: `{'指数代码': …, 'ETF代码': …}`. -/
structure EntryDetails where
  indexCode : String
  etfCode : String
  deriving DecidableEq

/-- Rounding to 2 decimal places (`round(2)` / `f"{x:.2f}"`), on ℚ. -/
def round2 (q : ℚ) : ℚ := ((round (q * 100) : ℤ) : ℚ) / 100

/-- The pandas comparison `ratio < current`: `false` when `current` is NaN. -/
def ltCur (cur : Option ℚ) (r : ℚ) : Bool :=
  match cur with
  | some c => decide (r < c)
  | none => false

/-- `df_period = df_hist[df_hist['trade_date'] >= start_period]` with
`start_period = now - timedelta(days=365*years)`. -/
def windowPts (today : ℤ) (years : ℕ) (pts : List VPoint) : List VPoint :=
  pts.filter (fun p => decide (today - 365 * (years : ℤ) ≤ p.trade_date))

/-- `df.dropna(subset=[col])` followed by `df[df[col] > 0]`, keeping just the
ratio column `f` of the surviving rows. -/
def validRatios (f : VPoint → Option ℚ) (pts : List VPoint) : List ℚ :=
  (pts.filterMap f).filter (fun r => decide (0 < r))

/-- `(df[col] < current).sum() / len(df) * 100`. -/
def pctValue (cur : Option ℚ) (l : List ℚ) : ℚ :=
  ((l.countP (ltCur cur) : ℚ) / (l.length : ℚ)) * 100

/-- The percentile of one window: `none` stands for the `"N/A"` branch taken
when the cleaned window is empty. -/
def windowPercentile (cur : Option ℚ) (l : List ℚ) : Option ℚ :=
  if l.isEmpty then none else some (pctValue cur l)

/-- Storing a computed percentile in the summary row:
`f"{p:.2f}%"` or the string `"N/A"`. -/
def cellOfPct : Option ℚ → Cell
  | none => Cell.na
  | some q => Cell.pct (round2 q)

/-- The six percentile columns added by the `for years in [3, 5, 10]` loop,
in insertion order. -/
def pctCells (today : ℤ) (cpe cpb : Option ℚ) (pts : List VPoint) :
    List (String × Cell) :=
  ([3, 5, 10] : List ℕ).flatMap (fun years =>
    [("PE分位(" ++ toString years ++ "年)",
        cellOfPct (windowPercentile cpe
          (validRatios VPoint.pe_ttm (windowPts today years pts)))),
     ("PB分位(" ++ toString years ++ "年)",
        cellOfPct (windowPercentile cpb
          (validRatios VPoint.pb (windowPts today years pts))))])

/-- The `item_result` dict built for one entry whose fetched series is
`pts` with first row `first` (`df_hist.iloc[0]`). -/
def summaryRow (today : ℤ) (name : String) (d : EntryDetails) (first : VPoint)
    (pts : List VPoint) : Row :=
  [("ETF名称", Cell.str name),
   ("跟踪指数", Cell.str d.indexCode),
   ("代码", Cell.str d.etfCode),
   ("当前PE-TTM", Cell.cur first.pe_ttm),
   ("当前PB", Cell.cur first.pb)] ++
  pctCells today first.pe_ttm first.pb pts

/-- `pd.DataFrame(results)`: the columns are those of the row dicts (all rows
share the same keys), an empty list of rows giving a frame with no columns. -/
def mkFrame : List Row → Frame
  | [] => ⟨[], []⟩
  | r :: rs => ⟨r.map Prod.fst, r :: rs⟩

/-- What `get_valuation_data` produces: the returned DataFrame, the entry
names for which `st.warning` was emitted (empty fetched series), and the
error message displayed by the `except` branch when an upstream call raised. -/
structure FetchResult where
  frame : Frame
  warnings : List String
  error : Option String
  deriving DecidableEq

/-- The `for` loop of `get_valuation_data`.  A failing upstream call
(`Except.error`) raises: control jumps to the `except` branch, which returns
an empty DataFrame, discarding all rows built so far.  An empty fetched
series is skipped with a warning.  Otherwise the entry's summary row is
appended. -/
def runEntries (today : ℤ) (fetch : String → Except String (List VPoint)) :
    List (String × EntryDetails) → List Row → List String →
    List Row × List String × Option String
  | [], acc, warns => (acc, warns, none)
  | (name, d) :: rest, acc, warns =>
    match fetch d.indexCode with
    | Except.error e => ([], warns, some e)
    | Except.ok [] => runEntries today fetch rest acc (warns ++ [name])
    | Except.ok (first :: more) =>
        runEntries today fetch rest
          (acc ++ [summaryRow today name d first (first :: more)]) warns

/-- `get_valuation_data(token, portfolio)`.  The upstream call
`pro.index_dailybasic(...)` is abstracted as the oracle `fetch` from index
code to either a raised exception or the fetched series. -/
def get_valuation_data (today : ℤ)
    (fetch : String → Except String (List VPoint))
    (portfolio : List (String × EntryDetails)) : FetchResult :=
  let out := runEntries today fetch portfolio [] []
  ⟨mkFrame out.1, out.2.1, out.2.2⟩

/-- The column name `'投资权重'`. -/
def weightCol : String := "投资权重"

/-- The column name `'建议投资额(元)'`. -/
def allocCol : String := "建议投资额(元)"

/-- `get_weight(percentile_str)`: a cell that is not a percentile string
(`"N/A"`, a missing value, any other cell) gives weight 0, otherwise the
parsed percentile value is run through the nested conditionals. -/
def get_weight : Option Cell → ℚ
  | some (Cell.pct p) =>
      if p < 20 then 2.0
      else if 20 ≤ p ∧ p < 40 then 1.5
      else if 40 ≤ p ∧ p < 60 then 1.0
      else if 60 ≤ p ∧ p < 80 then 0.5
      else 0.1
  | _ => 0

/-- The weight assigned to one row by
`df['投资权重'] = df[selected_percentile_col].apply(get_weight)`. -/
def rowWeight (col : String) (r : Row) : ℚ := get_weight (r.lookup col)

/-- `total_weight = df['投资权重'].sum()`; the column was just assigned, so
its values are the per-row weights. -/
def totalWeight (col : String) (vd : Frame) : ℚ :=
  (vd.rows.map (rowWeight col)).sum

/-- The guard `valuation_data.empty or selected_percentile_col not in
valuation_data.columns`. -/
def invalidInput (vd : Frame) (col : String) : Bool :=
  vd.rows.isEmpty || !(vd.cols.contains col)

/-- `calculate_allocation(total_investment, valuation_data,
selected_percentile_col)`.  Returns the produced DataFrame and whether the
zero-total-weight warning was emitted.  The function works on
`df = valuation_data.copy()`; adding the two columns is embedded as
appending their (key, cell) pairs to each row. -/
def calculate_allocation (total : ℚ) (vd : Frame) (col : String) :
    Frame × Bool :=
  if invalidInput vd col then (⟨[], []⟩, false)
  else
    let W := totalWeight col vd
    if W = 0 then
      (⟨vd.cols ++ [weightCol, allocCol],
        vd.rows.map (fun r =>
          r ++ [(weightCol, Cell.num (rowWeight col r)),
                (allocCol, Cell.num 0)])⟩,
       true)
    else
      (⟨vd.cols ++ [weightCol, allocCol],
        vd.rows.map (fun r =>
          r ++ [(weightCol, Cell.num (rowWeight col r)),
                (allocCol, Cell.num (round2 (rowWeight col r / W * total)))])⟩,
       false)

/-- Reading a numeric cell (`df['投资权重']` of one row). -/
def cellNum : Option Cell → ℚ
  | some (Cell.num q) => q
  | _ => 0

/-- `df['投资权重'] = df[col].apply(get_weight)` as a frame transformer. -/
def addWeightCol (col : String) (f : Frame) : Frame :=
  ⟨f.cols ++ [weightCol],
   f.rows.map (fun r => r ++ [(weightCol, Cell.num (rowWeight col r))])⟩

/-- `df['投资权重'].sum()` read back from the weight column. -/
def colWeightSum (f : Frame) : ℚ :=
  (f.rows.map (fun r => cellNum (r.lookup weightCol))).sum

/-- `df['建议投资额(元)'] = 0` as a frame transformer. -/
def addAllocZeroCol (f : Frame) : Frame :=
  ⟨f.cols ++ [allocCol],
   f.rows.map (fun r => r ++ [(allocCol, Cell.num 0)])⟩

/-- `df['建议投资额(元)'] = (df['投资权重'] / total_weight *
total_investment).round(2)` as a frame transformer. -/
def addAllocAmtCol (total W : ℚ) (f : Frame) : Frame :=
  ⟨f.cols ++ [allocCol],
   f.rows.map (fun r =>
     r ++ [(allocCol,
            Cell.num (round2 (cellNum (r.lookup weightCol) / W * total)))])⟩

/-- A store of DataFrame objects, making aliasing explicit: frames are
addressed by index, `getF`/`setF` read and write one object in place. -/
def getF (s : List Frame) (i : ℕ) : Frame := s.getD i ⟨[], []⟩

/-- Writing one frame object of the store in place. -/
def setF (s : List Frame) (i : ℕ) (f : Frame) : List Frame := s.set i f

/-- `calculate_allocation` with object mutation made explicit: the caller's
`valuation_data` lives at index `vref` of the store; `df =
valuation_data.copy()` allocates a fresh object, and the two column
assignments mutate only that object.  Returns the new store, the index of
the returned DataFrame, and whether the zero-weight warning was emitted. -/
def calc_allocation_st (total : ℚ) (s : List Frame) (vref : ℕ)
    (col : String) : List Frame × ℕ × Bool :=
  let vd := getF s vref
  if invalidInput vd col then (s ++ [⟨[], []⟩], s.length, false)
  else
    let s1 := s ++ [vd]
    let dref := s.length
    let s2 := setF s1 dref (addWeightCol col (getF s1 dref))
    let W := colWeightSum (getF s2 dref)
    if W = 0 then (setF s2 dref (addAllocZeroCol (getF s2 dref)), dref, true)
    else (setF s2 dref (addAllocAmtCol total W (getF s2 dref)), dref, false)

/-- Modelled from the spec (§4.1, steps 1–4): filter the full series to the
window, drop points whose ratio is null or ≤ 0, and if anything is left take
the strict less-than rank of the current ratio times 100, else "not
available".  Used to compare the code's percentile against the spec's
words. -/
def specPercentile (current : ℚ) (today : ℤ) (years : ℕ)
    (f : VPoint → Option ℚ) (pts : List VPoint) : Option ℚ :=
  let inWindow := pts.filter (fun p =>
    decide (today - 365 * (years : ℤ) ≤ p.trade_date))
  let valid := inWindow.filterMap (fun p =>
    match f p with
    | none => none
    | some r => if r ≤ 0 then none else some r)
  if valid.length = 0 then none
  else some (((valid.countP (fun r => decide (r < current)) : ℚ) /
    (valid.length : ℚ)) * 100)

/-- One step of scanning for the row with the maximal trade date. -/
def maxStep (acc : Option VPoint) (p : VPoint) : Option VPoint :=
  match acc with
  | none => some p
  | some q => if q.trade_date < p.trade_date then some p else some q

/-- Modelled from the spec (§4.1): "the row with the maximum date" of a
series — the point the spec says current ratios must come from.  The source
has no such selection; this definition exists to compare the source's
`df_hist.iloc[0]` against it. -/
def atMaxDate (pts : List VPoint) : Option VPoint := pts.foldl maxStep none

/-- Whether the upstream call for an entry raised. -/
def isErr : Except String (List VPoint) → Bool
  | Except.error _ => true
  | Except.ok _ => false

/-- Whether the upstream call for an entry returned an empty series. -/
def isEmptyOk : Except String (List VPoint) → Bool
  | Except.ok [] => true
  | _ => false

/-- The summary row an entry contributes when its fetch succeeds with a
nonempty series, `none` otherwise. -/
def entrySummary (today : ℤ) (fetch : String → Except String (List VPoint))
    (e : String × EntryDetails) : Option Row :=
  match fetch e.2.indexCode with
  | Except.ok (first :: more) =>
      some (summaryRow today e.1 e.2 first (first :: more))
  | _ => none

/-! Concrete inputs used to exercise the definitions. -/

/-- A one-point series: one valid PE/PB observation. -/
def exPts8 : List VPoint := [⟨0, some 1, some 1⟩]

/-- Summaries of two entries at percentiles 15 and 60 of column "P". -/
def exF3 : Frame := ⟨["P"], [[("P", Cell.pct 15)], [("P", Cell.pct 60)]]⟩

/-- A single summary whose selected percentile is "N/A". -/
def exF4 : Frame := ⟨["P"], [[("P", Cell.na)]]⟩

/-- A single summary at percentile 10 of column "P". -/
def exF6 : Frame := ⟨["P"], [[("P", Cell.pct 10)]]⟩

/-- Two summaries: percentile 15 and "N/A". -/
def exF10 : Frame := ⟨["P"], [[("P", Cell.pct 15)], [("P", Cell.na)]]⟩

/-- The empty DataFrame. -/
def exFrameEmpty : Frame := ⟨[], []⟩

/-- Details of a first portfolio entry. -/
def exEntryA : EntryDetails := ⟨"IA", "EA"⟩

/-- Details of a second portfolio entry. -/
def exEntryB : EntryDetails := ⟨"IB", "EB"⟩

/-- A valid valuation point. -/
def exPt : VPoint := ⟨0, some 10, some 2⟩

/-- A two-entry portfolio. -/
def exPortfolioAB : List (String × EntryDetails) := [("A", exEntryA), ("B", exEntryB)]

/-- An oracle whose upstream call raises for entry A and succeeds with a
nonempty series for entry B. -/
def fetchErrA (s : String) : Except String (List VPoint) :=
  if s = "IA" then Except.error "network" else Except.ok [exPt]

/-- An oracle that returns a nonempty series for entry A and an empty series
for entry B. -/
def fetchEmptyB (s : String) : Except String (List VPoint) :=
  if s = "IB" then Except.ok [] else Except.ok [exPt]

/-- A series ordered oldest-first: the first row is not the most recent. -/
def exPts7 : List VPoint := [⟨0, some 1, some 4⟩, ⟨10, some 2, some 5⟩]

/-- An oracle returning the oldest-first series for every index code. -/
def fetch7 (_ : String) : Except String (List VPoint) := Except.ok exPts7

/-- A one-entry portfolio. -/
def exPortfolioA : List (String × EntryDetails) := [("A", exEntryA)]

/-- A store holding one caller-owned DataFrame. -/
def exStore : List Frame := [exF3]

/-! Helper lemmas. -/

theorem ltCur_some (c : ℚ) : ltCur (some c) = fun r => decide (r < c) := rfl

theorem mkFrame_rows (l : List Row) : (mkFrame l).rows = l := by
  cases l <;> rfl

theorem validRatios_eq_spec (f : VPoint → Option ℚ) (l : List VPoint) :
    validRatios f l = l.filterMap (fun p =>
      match f p with
      | none => none
      | some r => if r ≤ 0 then none else some r) := by
  induction l with
  | nil => rfl
  | cons p t ih =>
    unfold validRatios at ih ⊢
    rw [List.filterMap_cons, List.filterMap_cons]
    cases hf : f p with
    | none => simpa [hf] using ih
    | some r =>
      by_cases hr : r ≤ 0
      · simp [hf, hr, List.filter_cons, not_lt.mpr hr, ih]
      · simp [hf, hr, List.filter_cons, not_le.mp hr, ih]

theorem countP_lt_of_min (c : ℚ) (l : List ℚ) (h : ∀ x ∈ l, c ≤ x) :
    l.countP (ltCur (some c)) = 0 := by
  rw [List.countP_eq_zero]
  intro a ha
  simp only [ltCur, decide_eq_true_eq]
  exact not_lt.mpr (h a ha)

theorem countP_lt_add_count (c : ℚ) (l : List ℚ) (h : ∀ x ∈ l, x ≤ c) :
    l.countP (ltCur (some c)) + l.count c = l.length := by
  induction l with
  | nil => rfl
  | cons a t ih =>
    have ha := h a (by simp)
    have ht := ih (fun x hx => h x (by simp [hx]))
    by_cases hac : a = c
    · have h1 : ltCur (some c) a = false := by simp [ltCur, hac]
      have h2 : (a == c) = true := by simp [hac]
      rw [List.countP_cons, List.count_cons, List.length_cons, h1, h2]
      simp only [Bool.false_eq_true, if_false, if_true]
      omega
    · have halt : a < c := lt_of_le_of_ne ha hac
      have h1 : ltCur (some c) a = true := by simp [ltCur, halt]
      have h2 : (a == c) = false := by simp [hac]
      rw [List.countP_cons, List.count_cons, List.length_cons, h1, h2]
      simp only [Bool.false_eq_true, if_false, if_true]
      omega

theorem getD_map_of_lt {α β : Type} (f : α → β) (l : List α) (i : ℕ)
    (h : i < l.length) (d : α) (d' : β) :
    (l.map f).getD i d' = f (l.getD i d) := by
  induction l generalizing i with
  | nil => simp at h
  | cons a t ih =>
    cases i with
    | zero => rfl
    | succ n =>
      show (t.map f).getD n d' = f (t.getD n d)
      exact ih n (by simpa using h)

theorem lookup_cons {β : Type} (k a : String) (b : β) (es : List (String × β)) :
    List.lookup k ((a, b) :: es) =
      if (k == a) = true then some b else List.lookup k es := by
  cases hk : k == a <;> simp [List.lookup, hk]

theorem lookup_append_of_none {β : Type} (l l' : List (String × β)) (k : String)
    (h : List.lookup k l = none) :
    List.lookup k (l ++ l') = List.lookup k l' := by
  induction l with
  | nil => rfl
  | cons p t ih =>
    obtain ⟨a, b⟩ := p
    rw [List.cons_append, lookup_cons]
    rw [lookup_cons] at h
    by_cases hk : (k == a) = true
    · rw [if_pos hk] at h
      exact absurd h (by simp)
    · rw [if_neg hk] at h ⊢
      exact ih h

theorem foldl_maxStep_of_le (q : VPoint) (l : List VPoint)
    (h : ∀ p ∈ l, p.trade_date ≤ q.trade_date) :
    l.foldl maxStep (some q) = some q := by
  induction l with
  | nil => rfl
  | cons a t ih =>
    have ha := h a (by simp)
    have hstep : maxStep (some q) a = some q := by
      show (if q.trade_date < a.trade_date then some a else some q) = some q
      rw [if_neg (not_lt.mpr ha)]
    rw [List.foldl_cons, hstep]
    exact ih (fun p hp => h p (by simp [hp]))

theorem calculate_allocation_invalid (total : ℚ) (vd : Frame) (col : String)
    (h : invalidInput vd col = true) :
    calculate_allocation total vd col = (⟨[], []⟩, false) := by
  simp [calculate_allocation, h]

theorem calculate_allocation_zero (total : ℚ) (vd : Frame) (col : String)
    (h1 : vd.rows.isEmpty = false) (h2 : vd.cols.contains col = true)
    (h0 : totalWeight col vd = 0) :
    calculate_allocation total vd col =
      (⟨vd.cols ++ [weightCol, allocCol],
        vd.rows.map (fun r =>
          r ++ [(weightCol, Cell.num (rowWeight col r)),
                (allocCol, Cell.num 0)])⟩,
       true) := by
  have hinv : invalidInput vd col = false := by
    unfold invalidInput
    rw [h1, h2]
    rfl
  simp [calculate_allocation, hinv, h0]

theorem calculate_allocation_pos (total : ℚ) (vd : Frame) (col : String)
    (h1 : vd.rows.isEmpty = false) (h2 : vd.cols.contains col = true)
    (hW : totalWeight col vd ≠ 0) :
    calculate_allocation total vd col =
      (⟨vd.cols ++ [weightCol, allocCol],
        vd.rows.map (fun r =>
          r ++ [(weightCol, Cell.num (rowWeight col r)),
                (allocCol, Cell.num (round2
                  (rowWeight col r / totalWeight col vd * total)))])⟩,
       false) := by
  have hinv : invalidInput vd col = false := by
    unfold invalidInput
    rw [h1, h2]
    rfl
  simp [calculate_allocation, hinv, hW]

theorem round2_sub_abs (q : ℚ) : |round2 q - q| ≤ 1 / 200 := by
  have h := abs_sub_round (q * 100)
  rw [abs_sub_comm] at h
  have heq : round2 q - q = (((round (q * 100) : ℤ) : ℚ) - q * 100) / 100 := by
    unfold round2; ring
  rw [heq, abs_div]
  have h100 : |(100 : ℚ)| = 100 := by norm_num
  rw [h100]
  linarith

theorem sum_map_round2_sub {α : Type} (g : α → ℚ) (l : List α) :
    |(l.map (fun x => round2 (g x))).sum - (l.map g).sum| ≤
      (l.length : ℚ) * (1 / 200) := by
  induction l with
  | nil => simp
  | cons a t ih =>
    simp only [List.map_cons, List.sum_cons, List.length_cons]
    have h1 := round2_sub_abs (g a)
    have h2 : round2 (g a) + (t.map (fun x => round2 (g x))).sum -
        (g a + (t.map g).sum) =
        (round2 (g a) - g a) +
        ((t.map (fun x => round2 (g x))).sum - (t.map g).sum) := by ring
    rw [h2]
    have h3 := abs_add (round2 (g a) - g a)
      ((t.map (fun x => round2 (g x))).sum - (t.map g).sum)
    push_cast
    linarith

theorem sum_map_mul_const (l : List ℚ) (c : ℚ) :
    (l.map (fun w => w * c)).sum = l.sum * c := by
  induction l with
  | nil => simp
  | cons a t ih => simp [ih]; ring

theorem runEntries_all_ok (today : ℤ)
    (fetch : String → Except String (List VPoint))
    (l : List (String × EntryDetails)) (acc : List Row) (warns : List String)
    (h : ∀ e ∈ l, isErr (fetch e.2.indexCode) = false) :
    runEntries today fetch l acc warns =
      (acc ++ l.filterMap (entrySummary today fetch),
       warns ++ (l.filter (fun e => isEmptyOk (fetch e.2.indexCode))).map
         Prod.fst,
       none) := by
  induction l generalizing acc warns with
  | nil => simp [runEntries]
  | cons e rest ih =>
    obtain ⟨name, d⟩ := e
    have he := h _ (List.mem_cons_self _ _)
    have hrest : ∀ x ∈ rest, isErr (fetch x.2.indexCode) = false :=
      fun x hx => h x (List.mem_cons_of_mem _ hx)
    cases hf : fetch d.indexCode with
    | error err =>
      rw [hf] at he
      exact absurd he (by simp [isErr])
    | ok pts =>
      cases pts with
      | nil =>
        simp only [runEntries, hf]
        rw [ih _ _ hrest]
        simp [entrySummary, hf, isEmptyOk, List.filter_cons]
      | cons first more =>
        simp only [runEntries, hf]
        rw [ih _ _ hrest]
        simp [entrySummary, hf, isEmptyOk, List.filter_cons]

theorem runEntries_err (today : ℤ)
    (fetch : String → Except String (List VPoint))
    (l : List (String × EntryDetails)) (acc : List Row) (warns : List String)
    (h : ∃ e ∈ l, isErr (fetch e.2.indexCode) = true) :
    (runEntries today fetch l acc warns).1 = [] ∧
    (runEntries today fetch l acc warns).2.2 ≠ none := by
  induction l generalizing acc warns with
  | nil =>
    obtain ⟨e, he, _⟩ := h
    exact absurd he (by simp)
  | cons e rest ih =>
    obtain ⟨name, d⟩ := e
    cases hf : fetch d.indexCode with
    | error err => simp [runEntries, hf]
    | ok pts =>
      have hrest : ∃ x ∈ rest, isErr (fetch x.2.indexCode) = true := by
        obtain ⟨x, hx, hxe⟩ := h
        rcases List.mem_cons.mp hx with hx0 | hmem
        · rw [hx0] at hxe
          rw [hf] at hxe
          exact absurd hxe (by simp [isErr])
        · exact ⟨x, hmem, hxe⟩
      cases pts with
      | nil =>
        simp only [runEntries, hf]
        exact ih _ _ hrest
      | cons first more =>
        simp only [runEntries, hf]
        exact ih _ _ hrest

theorem getF_append_lt (s : List Frame) (f : Frame) (i : ℕ)
    (h : i < s.length) : getF (s ++ [f]) i = getF s i := by
  induction s generalizing i with
  | nil => simp at h
  | cons a t ih =>
    cases i with
    | zero => rfl
    | succ n =>
      show getF (t ++ [f]) n = getF t n
      exact ih n (by simpa using h)

theorem getF_append_len (s : List Frame) (f : Frame) :
    getF (s ++ [f]) s.length = f := by
  induction s with
  | nil => rfl
  | cons a t ih =>
    show getF (t ++ [f]) t.length = f
    exact ih

theorem getF_set_self (s : List Frame) (i : ℕ) (f : Frame)
    (h : i < s.length) : getF (setF s i f) i = f := by
  induction s generalizing i with
  | nil => simp at h
  | cons a t ih =>
    cases i with
    | zero => rfl
    | succ n =>
      show getF (setF t n f) n = f
      exact ih n (by simpa using h)

theorem getF_set_ne (s : List Frame) (i j : ℕ) (f : Frame) (hne : i ≠ j) :
    getF (setF s i f) j = getF s j := by
  induction s generalizing i j with
  | nil => rfl
  | cons a t ih =>
    cases i with
    | zero =>
      cases j with
      | zero => exact absurd rfl hne
      | succ m => rfl
    | succ n =>
      cases j with
      | zero => rfl
      | succ m =>
        show getF (setF t n f) m = getF t m
        exact ih n m (fun hc => hne (by rw [hc]))

theorem colWeightSum_addWeightCol (col : String) (vd : Frame)
    (hclean : ∀ r ∈ vd.rows, List.lookup weightCol r = none) :
    colWeightSum (addWeightCol col vd) = totalWeight col vd := by
  unfold colWeightSum addWeightCol totalWeight
  dsimp only
  rw [List.map_map]
  apply congrArg List.sum
  apply List.map_congr_left
  intro r hr
  simp only [Function.comp_apply]
  rw [lookup_append_of_none _ _ _ (hclean r hr), lookup_cons]
  simp [cellNum]

theorem addAllocZero_after_weight (col : String) (vd : Frame) :
    addAllocZeroCol (addWeightCol col vd) =
      ⟨vd.cols ++ [weightCol, allocCol],
       vd.rows.map (fun r =>
         r ++ [(weightCol, Cell.num (rowWeight col r)),
               (allocCol, Cell.num 0)])⟩ := by
  unfold addAllocZeroCol addWeightCol
  dsimp only
  congr 1
  · simp
  · rw [List.map_map]
    apply List.map_congr_left
    intro r _
    simp [Function.comp]

theorem addAllocAmt_after_weight (total W : ℚ) (col : String) (vd : Frame)
    (hclean : ∀ r ∈ vd.rows, List.lookup weightCol r = none) :
    addAllocAmtCol total W (addWeightCol col vd) =
      ⟨vd.cols ++ [weightCol, allocCol],
       vd.rows.map (fun r =>
         r ++ [(weightCol, Cell.num (rowWeight col r)),
               (allocCol, Cell.num (round2
                 (rowWeight col r / W * total)))])⟩ := by
  unfold addAllocAmtCol addWeightCol
  dsimp only
  congr 1
  · simp
  · rw [List.map_map]
    apply List.map_congr_left
    intro r hr
    simp only [Function.comp_apply]
    rw [lookup_append_of_none _ _ _ (hclean r hr), lookup_cons]
    simp [cellNum]

theorem calc_allocation_st_zero (total : ℚ) (s : List Frame) (vref : ℕ)
    (col : String) (hinv : invalidInput (getF s vref) col = false)
    (hclean : ∀ r ∈ (getF s vref).rows, List.lookup weightCol r = none)
    (hW : totalWeight col (getF s vref) = 0) :
    calc_allocation_st total s vref col =
      (setF (s ++ [getF s vref]) s.length
        (addAllocZeroCol (addWeightCol col (getF s vref))),
       s.length, true) := by
  unfold calc_allocation_st
  simp only [hinv, Bool.false_eq_true, if_false, getF_append_len,
    setF, List.set_set]
  rw [show (s ++ [getF s vref]).set s.length
      (addWeightCol col (getF s vref)) =
      setF (s ++ [getF s vref]) s.length
        (addWeightCol col (getF s vref)) from rfl]
  rw [getF_set_self _ _ _ (by simp)]
  rw [colWeightSum_addWeightCol col _ hclean, hW]
  simp [setF, List.set_set]

theorem calc_allocation_st_pos (total : ℚ) (s : List Frame) (vref : ℕ)
    (col : String) (hinv : invalidInput (getF s vref) col = false)
    (hclean : ∀ r ∈ (getF s vref).rows, List.lookup weightCol r = none)
    (hW : totalWeight col (getF s vref) ≠ 0) :
    calc_allocation_st total s vref col =
      (setF (s ++ [getF s vref]) s.length
        (addAllocAmtCol total (totalWeight col (getF s vref))
          (addWeightCol col (getF s vref))),
       s.length, false) := by
  unfold calc_allocation_st
  simp only [hinv, Bool.false_eq_true, if_false, getF_append_len]
  rw [show (setF (s ++ [getF s vref]) s.length
      (addWeightCol col (getF s vref))) =
      setF (s ++ [getF s vref]) s.length
        (addWeightCol col (getF s vref)) from rfl]
  rw [getF_set_self _ _ _ (by simp)]
  rw [colWeightSum_addWeightCol col _ hclean]
  simp [hW, setF, List.set_set]

/-! Claim theorems. -/

/-- C1: for every ratio type and window length, the computed percentile is
taken over the full series filtered to the window and cleaned of null or
non-positive ratios; when the cleaned set is nonempty it equals the count of
points strictly below the current ratio over the count of all points times
100 (ties not counted), and when it is empty the percentile is "not
available" (`none`).  Stated as equality with `specPercentile`, the literal
transcription of the spec's four steps. -/
theorem C1_percentile_matches_spec (c : ℚ) (today : ℤ) (years : ℕ)
    (f : VPoint → Option ℚ) (pts : List VPoint) :
    windowPercentile (some c) (validRatios f (windowPts today years pts)) =
      specPercentile c today years f pts := by
  simp only [specPercentile, windowPercentile, windowPts, pctValue,
    ltCur_some, ← validRatios_eq_spec]
  cases hl : validRatios f (pts.filter
      (fun p => decide (today - 365 * (years : ℤ) ≤ p.trade_date))) with
  | nil => simp [hl]
  | cons a t => simp [hl]

/-- C2: the weight from the selected percentile p is 2.0 for p < 20, 1.5 for
20 ≤ p < 40, 1.0 for 40 ≤ p < 60, 0.5 for 60 ≤ p < 80, 0.1 for p ≥ 80, and 0
for "not available"; in particular p = 20 gives 1.5 and p = 80 gives 0.1. -/
theorem C2_weight_rule (p : ℚ) :
    (p < 20 → get_weight (some (Cell.pct p)) = 2.0) ∧
    (20 ≤ p → p < 40 → get_weight (some (Cell.pct p)) = 1.5) ∧
    (40 ≤ p → p < 60 → get_weight (some (Cell.pct p)) = 1.0) ∧
    (60 ≤ p → p < 80 → get_weight (some (Cell.pct p)) = 0.5) ∧
    (80 ≤ p → get_weight (some (Cell.pct p)) = 0.1) ∧
    get_weight (some Cell.na) = 0 ∧ get_weight none = 0 ∧
    get_weight (some (Cell.pct 20)) = 1.5 ∧
    get_weight (some (Cell.pct 80)) = 0.1 := by
  refine ⟨?_, ?_, ?_, ?_, ?_, rfl, rfl, ?_, ?_⟩
  · intro h; simp [get_weight, h]
  · intro h1 h2; simp [get_weight, not_lt.mpr h1, h1, h2]
  · intro h1 h2
    simp [get_weight, not_lt.mpr h1, not_lt.mpr (by linarith : (20:ℚ) ≤ p), h1, h2]
  · intro h1 h2
    simp [get_weight, not_lt.mpr h1, not_lt.mpr (by linarith : (20:ℚ) ≤ p),
      not_lt.mpr (by linarith : (40:ℚ) ≤ p), h1, h2]
  · intro h1
    simp [get_weight, not_lt.mpr h1, not_lt.mpr (by linarith : (20:ℚ) ≤ p),
      not_lt.mpr (by linarith : (40:ℚ) ≤ p), not_lt.mpr (by linarith : (60:ℚ) ≤ p)]
  · norm_num [get_weight]
  · norm_num [get_weight]

/-- Witness for C2 at concrete percentiles 10, 30, 50, 70 and 90. -/
theorem C2_weight_rule_witness :
    get_weight (some (Cell.pct 10)) = 2.0 ∧
    get_weight (some (Cell.pct 30)) = 1.5 ∧
    get_weight (some (Cell.pct 50)) = 1.0 ∧
    get_weight (some (Cell.pct 70)) = 0.5 ∧
    get_weight (some (Cell.pct 90)) = 0.1 :=
  ⟨(C2_weight_rule 10).1 (by norm_num),
   (C2_weight_rule 30).2.1 (by norm_num) (by norm_num),
   (C2_weight_rule 50).2.2.1 (by norm_num) (by norm_num),
   (C2_weight_rule 70).2.2.2.1 (by norm_num) (by norm_num),
   (C2_weight_rule 90).2.2.2.2.1 (by norm_num)⟩

/-- C8: over the valid points of a window (nonempty), a current ratio equal
to the minimum has percentile 0, and a current ratio occurring once and
strictly above every other valid point has percentile 100·(n−1)/n. -/
theorem C8_window_extremes (today : ℤ) (years : ℕ) (f : VPoint → Option ℚ)
    (pts : List VPoint) (c : ℚ)
    (hne : validRatios f (windowPts today years pts) ≠ []) :
    ((∀ x ∈ validRatios f (windowPts today years pts), c ≤ x) →
      windowPercentile (some c) (validRatios f (windowPts today years pts)) =
        some 0) ∧
    (((validRatios f (windowPts today years pts)).count c = 1 ∧
      ∀ x ∈ validRatios f (windowPts today years pts), x ≤ c) →
      windowPercentile (some c) (validRatios f (windowPts today years pts)) =
        some (100 *
          (((validRatios f (windowPts today years pts)).length : ℚ) - 1) /
          ((validRatios f (windowPts today years pts)).length : ℚ))) := by
  set l := validRatios f (windowPts today years pts) with hldef
  have hempty : l.isEmpty = false := List.isEmpty_eq_false.mpr hne
  have hlen : l.length ≠ 0 := fun h => hne (List.length_eq_zero.mp h)
  constructor
  · intro hmin
    simp [windowPercentile, hempty, pctValue, countP_lt_of_min c l hmin]
  · rintro ⟨hcount, hle⟩
    have hsum := countP_lt_add_count c l hle
    rw [hcount] at hsum
    have hcast : (l.countP (ltCur (some c)) : ℚ) = (l.length : ℚ) - 1 := by
      have h1 : l.countP (ltCur (some c)) + 1 = l.length := hsum
      have := congrArg (fun n : ℕ => (n : ℚ)) h1
      push_cast at this
      linarith
    simp only [windowPercentile, hempty, Bool.false_eq_true, if_false,
      pctValue, hcast]
    congr 1
    ring

/-- C4: whenever the computed weights sum to 0 (with well-formed input so
the guard is passed), the zero-weight warning is signalled and every row gets
allocation cell 0, whatever the total amount is. -/
theorem C4_zero_weight_all_zero (total : ℚ) (vd : Frame) (col : String)
    (h1 : vd.rows.isEmpty = false) (h2 : vd.cols.contains col = true)
    (h0 : totalWeight col vd = 0) :
    (calculate_allocation total vd col).2 = true ∧
    (calculate_allocation total vd col).1.rows =
      vd.rows.map (fun r =>
        r ++ [(weightCol, Cell.num (rowWeight col r)),
              (allocCol, Cell.num 0)]) := by
  rw [calculate_allocation_zero total vd col h1 h2 h0]
  exact ⟨rfl, rfl⟩

/-- Witness for C4 on the one-row frame whose percentile is "N/A". -/
theorem C4_zero_weight_all_zero_witness :
    (exF4.rows.isEmpty = false ∧ exF4.cols.contains "P" = true ∧
      totalWeight "P" exF4 = 0) ∧
    ((calculate_allocation 100 exF4 "P").2 = true ∧
     (calculate_allocation 100 exF4 "P").1.rows =
       exF4.rows.map (fun r =>
         r ++ [(weightCol, Cell.num (rowWeight "P" r)),
               (allocCol, Cell.num 0)])) := by
  have h0 : totalWeight "P" exF4 = 0 := by
    norm_num [totalWeight, exF4, rowWeight, get_weight, List.lookup]
  exact ⟨⟨rfl, rfl, h0⟩, C4_zero_weight_all_zero 100 exF4 "P" rfl rfl h0⟩

/-- C3: with strictly positive total weight, every allocation cell is the
total amount times (row weight / total weight) rounded to 2 decimal places,
and the sum of those rounded allocations differs from the total amount by at
most 0.01 per row; the residue is returned as is. -/
theorem C3_allocation_rounding (total : ℚ) (vd : Frame) (col : String)
    (h1 : vd.rows.isEmpty = false) (h2 : vd.cols.contains col = true)
    (hW : 0 < totalWeight col vd) :
    (calculate_allocation total vd col).1.rows =
      vd.rows.map (fun r =>
        r ++ [(weightCol, Cell.num (rowWeight col r)),
              (allocCol, Cell.num (round2
                (total * (rowWeight col r / totalWeight col vd))))]) ∧
    |(vd.rows.map (fun r =>
        round2 (total * (rowWeight col r / totalWeight col vd)))).sum -
      total| ≤ (vd.rows.length : ℚ) * (1 / 100) := by
  have hW' : totalWeight col vd ≠ 0 := ne_of_gt hW
  constructor
  · rw [calculate_allocation_pos total vd col h1 h2 hW']
    have hcomm : ∀ r : Row, rowWeight col r / totalWeight col vd * total =
        total * (rowWeight col r / totalWeight col vd) := fun r => by ring
    simp only [hcomm]
  · have hsum : (vd.rows.map (fun r =>
        total * (rowWeight col r / totalWeight col vd))).sum = total := by
      have hcomp : vd.rows.map (fun r =>
          total * (rowWeight col r / totalWeight col vd)) =
          (vd.rows.map (rowWeight col)).map
            (fun w => w * (total / totalWeight col vd)) := by
        rw [List.map_map]
        apply List.map_congr_left
        intro r _
        simp only [Function.comp_apply]
        ring
      rw [hcomp, sum_map_mul_const]
      show totalWeight col vd * (total / totalWeight col vd) = total
      field_simp
    have hb := sum_map_round2_sub
      (fun r => total * (rowWeight col r / totalWeight col vd)) vd.rows
    rw [hsum] at hb
    have hlen : (0 : ℚ) ≤ (vd.rows.length : ℚ) := Nat.cast_nonneg _
    nlinarith [hb, hlen]

/-- Witness for C3 on the two-row frame at percentiles 15 and 60 with total
amount 1000 (weights 2.0 and 0.5). -/
theorem C3_allocation_rounding_witness :
    (exF3.rows.isEmpty = false ∧ exF3.cols.contains "P" = true ∧
      0 < totalWeight "P" exF3) ∧
    ((calculate_allocation 1000 exF3 "P").1.rows =
      exF3.rows.map (fun r =>
        r ++ [(weightCol, Cell.num (rowWeight "P" r)),
              (allocCol, Cell.num (round2
                (1000 * (rowWeight "P" r / totalWeight "P" exF3))))]) ∧
     |(exF3.rows.map (fun r =>
        round2 (1000 * (rowWeight "P" r / totalWeight "P" exF3)))).sum -
       1000| ≤ (exF3.rows.length : ℚ) * (1 / 100)) := by
  have hW : 0 < totalWeight "P" exF3 := by
    norm_num [totalWeight, exF3, rowWeight, get_weight, List.lookup]
  exact ⟨⟨rfl, rfl, hW⟩, C3_allocation_rounding 1000 exF3 "P" rfl rfl hW⟩

/-- Counterexample to C6: calling `calculate_allocation` with the negative
total amount −100 on a valid one-row frame is not a no-op — the row is kept
and gets the negative allocation −100, so the result is neither empty nor
all-zero; the code never checks the sign of the total amount. -/
theorem C6_counterexample :
    (calculate_allocation (-100) exF6 "P").1.rows =
      [[("P", Cell.pct 10), (weightCol, Cell.num 2),
        (allocCol, Cell.num (-100))]] ∧
    (calculate_allocation (-100) exF6 "P").1.rows ≠ [] := by
  have hWv : totalWeight "P" exF6 = 2 := by
    norm_num [totalWeight, exF6, rowWeight, get_weight, List.lookup]
  have he : (calculate_allocation (-100) exF6 "P").1.rows =
      [[("P", Cell.pct 10), (weightCol, Cell.num 2),
        (allocCol, Cell.num (-100))]] := by
    rw [calculate_allocation_pos (-100) exF6 "P" rfl rfl (by rw [hWv]; norm_num)]
    dsimp only
    rw [hWv]
    have hw : rowWeight "P" [("P", Cell.pct 10)] = 2 := by
      norm_num [rowWeight, get_weight, List.lookup]
    simp only [exF6, List.map_cons, List.map_nil, hw]
    norm_num [round2, round_eq]
  exact ⟨he, by rw [he]; simp⟩

/-- C6 as amended: an empty summary frame or an absent selector column short
circuits to the empty result, and a total amount of exactly 0 yields all-zero
allocations; but a strictly negative total amount is not guarded (see the
counterexample). -/
theorem C6_amended_guard (total : ℚ) (vd : Frame) (col : String) :
    (invalidInput vd col = true →
      calculate_allocation total vd col = (⟨[], []⟩, false)) ∧
    ((calculate_allocation 0 vd col).1.rows = [] ∨
      (calculate_allocation 0 vd col).1.rows =
        vd.rows.map (fun r =>
          r ++ [(weightCol, Cell.num (rowWeight col r)),
                (allocCol, Cell.num 0)])) := by
  constructor
  · intro h
    exact calculate_allocation_invalid total vd col h
  · by_cases hinv : invalidInput vd col = true
    · left
      rw [calculate_allocation_invalid 0 vd col hinv]
    · have hinv' : invalidInput vd col = false := by
        revert hinv
        cases invalidInput vd col <;> simp
      have h1 : vd.rows.isEmpty = false := by
        revert hinv'
        unfold invalidInput
        cases vd.rows.isEmpty <;> simp
      have h2 : vd.cols.contains col = true := by
        revert hinv'
        unfold invalidInput
        cases hc : vd.cols.contains col <;> simp
      right
      by_cases hW : totalWeight col vd = 0
      · rw [calculate_allocation_zero 0 vd col h1 h2 hW]
      · rw [calculate_allocation_pos 0 vd col h1 h2 hW]
        have hz : ∀ r : Row,
            round2 (rowWeight col r / totalWeight col vd * 0) = 0 := by
          intro r
          rw [mul_zero]
          norm_num [round2, round_eq]
        simp only [hz]

/-- Witness for C6 as amended: the guard applied to the empty frame, and the
zero-total call on a valid frame. -/
theorem C6_amended_guard_witness :
    (invalidInput exFrameEmpty "P" = true ∧
      calculate_allocation 5 exFrameEmpty "P" = (⟨[], []⟩, false)) ∧
    ((calculate_allocation 0 exF6 "P").1.rows = [] ∨
      (calculate_allocation 0 exF6 "P").1.rows =
        exF6.rows.map (fun r =>
          r ++ [(weightCol, Cell.num (rowWeight "P" r)),
                (allocCol, Cell.num 0)])) :=
  ⟨⟨rfl, (C6_amended_guard 5 exFrameEmpty "P").1 rfl⟩,
   (C6_amended_guard 0 exF6 "P").2⟩

/-- Witness for C8 on the one-point series `exPts8` with current ratio 1. -/
theorem C8_window_extremes_witness :
    (validRatios VPoint.pe_ttm (windowPts 0 3 exPts8) ≠ []) ∧
    windowPercentile (some 1)
      (validRatios VPoint.pe_ttm (windowPts 0 3 exPts8)) = some 0 ∧
    windowPercentile (some 1)
      (validRatios VPoint.pe_ttm (windowPts 0 3 exPts8)) =
      some (100 *
        (((validRatios VPoint.pe_ttm (windowPts 0 3 exPts8)).length : ℚ) - 1) /
        ((validRatios VPoint.pe_ttm (windowPts 0 3 exPts8)).length : ℚ)) := by
  have hl : validRatios VPoint.pe_ttm (windowPts 0 3 exPts8) = [1] := by
    norm_num [validRatios, windowPts, exPts8, List.filter, List.filterMap]
  refine ⟨by rw [hl]; simp, ?_, ?_⟩
  · exact (C8_window_extremes 0 3 VPoint.pe_ttm exPts8 1 (by rw [hl]; simp)).1
      (by rw [hl]; norm_num)
  · exact (C8_window_extremes 0 3 VPoint.pe_ttm exPts8 1 (by rw [hl]; simp)).2
      ⟨by rw [hl]; simp, by rw [hl]; norm_num⟩

/-- Counterexample to C5: entry A's upstream call raises while entry B's
call succeeds with a nonempty series, yet the returned DataFrame has no rows
at all — B's summary is not produced, the whole batch is aborted by the
surrounding `try/except`. -/
theorem C5_counterexample :
    fetchErrA "IB" = Except.ok [exPt] ∧
    (get_valuation_data 0 fetchErrA exPortfolioAB).frame.rows = [] ∧
    (get_valuation_data 0 fetchErrA exPortfolioAB).error = some "network" := by
  refine ⟨rfl, rfl, rfl⟩

/-- C5 as amended: when no upstream call raises, the batch completes with no
error, one summary row per entry with a nonempty series (in portfolio
order), and one warning per entry with an empty series; but when any entry's
upstream call raises, the whole batch is aborted — the DataFrame comes back
empty (no summaries at all) and an error message is emitted instead. -/
theorem C5_batch_failure_behaviour (today : ℤ)
    (fetch : String → Except String (List VPoint))
    (portfolio : List (String × EntryDetails)) :
    ((∀ e ∈ portfolio, isErr (fetch e.2.indexCode) = false) →
      (get_valuation_data today fetch portfolio).error = none ∧
      (get_valuation_data today fetch portfolio).frame.rows =
        portfolio.filterMap (entrySummary today fetch) ∧
      (get_valuation_data today fetch portfolio).warnings =
        (portfolio.filter (fun e => isEmptyOk (fetch e.2.indexCode))).map
          Prod.fst) ∧
    ((∃ e ∈ portfolio, isErr (fetch e.2.indexCode) = true) →
      (get_valuation_data today fetch portfolio).frame.rows = [] ∧
      (get_valuation_data today fetch portfolio).error ≠ none) := by
  constructor
  · intro h
    have hr := runEntries_all_ok today fetch portfolio [] [] h
    refine ⟨?_, ?_, ?_⟩
    · show (runEntries today fetch portfolio [] []).2.2 = none
      rw [hr]
    · show (mkFrame (runEntries today fetch portfolio [] []).1).rows = _
      rw [hr, mkFrame_rows]
      exact List.nil_append _
    · show (runEntries today fetch portfolio [] []).2.1 = _
      rw [hr]
      exact List.nil_append _
  · intro h
    have hr := runEntries_err today fetch portfolio [] [] h
    constructor
    · show (mkFrame (runEntries today fetch portfolio [] []).1).rows = []
      rw [mkFrame_rows, hr.1]
    · exact hr.2

/-- Witness for C5 as amended: a batch with one nonempty and one
empty-series entry, and a batch whose first entry raises. -/
theorem C5_batch_failure_behaviour_witness :
    ((get_valuation_data 0 fetchEmptyB exPortfolioAB).error = none ∧
     (get_valuation_data 0 fetchEmptyB exPortfolioAB).frame.rows =
       exPortfolioAB.filterMap (entrySummary 0 fetchEmptyB) ∧
     (get_valuation_data 0 fetchEmptyB exPortfolioAB).warnings =
       (exPortfolioAB.filter
         (fun e => isEmptyOk (fetchEmptyB e.2.indexCode))).map Prod.fst) ∧
    ((get_valuation_data 0 fetchErrA exPortfolioAB).frame.rows = [] ∧
     (get_valuation_data 0 fetchErrA exPortfolioAB).error ≠ none) :=
  ⟨(C5_batch_failure_behaviour 0 fetchEmptyB exPortfolioAB).1 (by decide),
   (C5_batch_failure_behaviour 0 fetchErrA exPortfolioAB).2
     ⟨("A", exEntryA), by decide, by decide⟩⟩

/-- Counterexample to C7: on a series whose first row is not the one with
the maximal trade date, the "current" PE used in the summary is the first
row's value 1, not the max-date row's value 2 — the implementation does not
select the row with the maximum date. -/
theorem C7_counterexample :
    (atMaxDate exPts7).map VPoint.pe_ttm = some (some 2) ∧
    ((get_valuation_data 0 fetch7 exPortfolioA).frame.rows.headD []).lookup
      "当前PE-TTM" = some (Cell.cur (some 1)) ∧
    ((get_valuation_data 0 fetch7 exPortfolioA).frame.rows.headD []).lookup
      "当前PE-TTM" ≠ some (Cell.cur (some 2)) := by
  have h2 : ((get_valuation_data 0 fetch7 exPortfolioA).frame.rows.headD
      []).lookup "当前PE-TTM" = some (Cell.cur (some 1)) := rfl
  refine ⟨rfl, h2, ?_⟩
  rw [h2]
  simp only [ne_eq, Option.some.injEq, Cell.cur.injEq]
  norm_num

/-- C7 as amended: the current PE and PB are the first fetched row's values;
whenever the series is ordered with the first row carrying the maximal trade
date (as the upstream guarantees, newest first), that first row is exactly
the row with the maximum date, so the current ratios are the max-date
values; no explicit max-date selection exists in the code. -/
theorem C7_current_is_first_row (today : ℤ) (name : String)
    (d : EntryDetails) (first : VPoint) (rest : List VPoint)
    (h : ∀ p ∈ rest, p.trade_date ≤ first.trade_date) :
    atMaxDate (first :: rest) = some first ∧
    (summaryRow today name d first (first :: rest)).lookup "当前PE-TTM" =
      some (Cell.cur first.pe_ttm) ∧
    (summaryRow today name d first (first :: rest)).lookup "当前PB" =
      some (Cell.cur first.pb) := by
  refine ⟨?_, rfl, rfl⟩
  show (first :: rest).foldl maxStep none = some first
  rw [List.foldl_cons]
  exact foldl_maxStep_of_le first rest h

/-- Witness for C7 as amended on a two-point series ordered newest-first. -/
theorem C7_current_is_first_row_witness :
    (∀ p ∈ [(⟨0, some 1, some 4⟩ : VPoint)],
      p.trade_date ≤ (⟨10, some 2, some 5⟩ : VPoint).trade_date) ∧
    (atMaxDate [⟨10, some 2, some 5⟩, ⟨0, some 1, some 4⟩] =
      some ⟨10, some 2, some 5⟩ ∧
    (summaryRow 0 "A" exEntryA ⟨10, some 2, some 5⟩
      [⟨10, some 2, some 5⟩, ⟨0, some 1, some 4⟩]).lookup "当前PE-TTM" =
      some (Cell.cur (some 2)) ∧
    (summaryRow 0 "A" exEntryA ⟨10, some 2, some 5⟩
      [⟨10, some 2, some 5⟩, ⟨0, some 1, some 4⟩]).lookup "当前PB" =
      some (Cell.cur (some 5))) :=
  ⟨by decide,
   C7_current_is_first_row 0 "A" exEntryA ⟨10, some 2, some 5⟩
     [⟨0, some 1, some 4⟩] (by decide)⟩

/-- C10: with well-formed input, `calculate_allocation` keeps one output row
per input row in the same order, each output row being the input row
unchanged with exactly the weight and allocation cells appended; a row whose
weight is 0 (for instance an "N/A" percentile) is kept with weight 0 and
allocation 0 rather than dropped. -/
theorem C10_row_preservation (total : ℚ) (vd : Frame) (col : String) (i : ℕ)
    (h1 : vd.rows.isEmpty = false) (h2 : vd.cols.contains col = true)
    (hi : i < vd.rows.length) :
    (calculate_allocation total vd col).1.rows.length = vd.rows.length ∧
    (calculate_allocation total vd col).1.rows.getD i [] =
      vd.rows.getD i [] ++
        [(weightCol, Cell.num (rowWeight col (vd.rows.getD i []))),
         (allocCol, Cell.num (if totalWeight col vd = 0 then 0
           else round2 (rowWeight col (vd.rows.getD i []) /
             totalWeight col vd * total)))] ∧
    (rowWeight col (vd.rows.getD i []) = 0 →
      (calculate_allocation total vd col).1.rows.getD i [] =
        vd.rows.getD i [] ++
          [(weightCol, Cell.num 0), (allocCol, Cell.num 0)]) := by
  by_cases hW : totalWeight col vd = 0
  · rw [calculate_allocation_zero total vd col h1 h2 hW]
    dsimp only
    refine ⟨by simp, ?_, ?_⟩
    · rw [getD_map_of_lt _ vd.rows i hi [] []]
      rw [if_pos hW]
    · intro hw0
      rw [getD_map_of_lt _ vd.rows i hi [] [], hw0]
  · rw [calculate_allocation_pos total vd col h1 h2 hW]
    dsimp only
    refine ⟨by simp, ?_, ?_⟩
    · rw [getD_map_of_lt _ vd.rows i hi [] []]
      rw [if_neg hW]
    · intro hw0
      rw [getD_map_of_lt _ vd.rows i hi [] [], hw0]
      have hz : round2 (0 / totalWeight col vd * total) = 0 := by
        rw [zero_div, zero_mul]
        norm_num [round2, round_eq]
      rw [hz]

/-- Witness for C10 at the "N/A" row (index 1) of a two-row frame. -/
theorem C10_row_preservation_witness :
    (exF10.rows.isEmpty = false ∧ exF10.cols.contains "P" = true ∧
      1 < exF10.rows.length) ∧
    ((calculate_allocation 100 exF10 "P").1.rows.length =
      exF10.rows.length ∧
    (calculate_allocation 100 exF10 "P").1.rows.getD 1 [] =
      exF10.rows.getD 1 [] ++
        [(weightCol, Cell.num (rowWeight "P" (exF10.rows.getD 1 []))),
         (allocCol, Cell.num (if totalWeight "P" exF10 = 0 then 0
           else round2 (rowWeight "P" (exF10.rows.getD 1 []) /
             totalWeight "P" exF10 * 100)))] ∧
    (rowWeight "P" (exF10.rows.getD 1 []) = 0 →
      (calculate_allocation 100 exF10 "P").1.rows.getD 1 [] =
        exF10.rows.getD 1 [] ++
          [(weightCol, Cell.num 0), (allocCol, Cell.num 0)])) :=
  ⟨⟨rfl, rfl, by norm_num [exF10]⟩,
   C10_row_preservation 100 exF10 "P" 1 rfl rfl (by norm_num [exF10])⟩

/-- C9: in the store model with aliasing explicit, `calculate_allocation`
works on a copy — after the call the caller's `valuation_data` object is
unchanged, the returned object holds exactly the result computed by the pure
function of the inputs, and the emitted signal is likewise a function of the
inputs only. -/
theorem C9_caller_frame_unchanged (total : ℚ) (s : List Frame) (vref : ℕ)
    (col : String) (hv : vref < s.length)
    (hclean : ∀ r ∈ (getF s vref).rows, List.lookup weightCol r = none) :
    getF (calc_allocation_st total s vref col).1 vref = getF s vref ∧
    getF (calc_allocation_st total s vref col).1
      (calc_allocation_st total s vref col).2.1 =
      (calculate_allocation total (getF s vref) col).1 ∧
    (calc_allocation_st total s vref col).2.2 =
      (calculate_allocation total (getF s vref) col).2 := by
  have hvne : s.length ≠ vref := fun hc => by
    rw [← hc] at hv
    exact lt_irrefl _ hv
  by_cases hinv : invalidInput (getF s vref) col = true
  · have hst : calc_allocation_st total s vref col =
        (s ++ [(⟨[], []⟩ : Frame)], s.length, false) := by
      unfold calc_allocation_st
      simp only [hinv, if_true]
    rw [hst, calculate_allocation_invalid total (getF s vref) col hinv]
    exact ⟨getF_append_lt s _ vref hv, getF_append_len s _, rfl⟩
  · have hinv' : invalidInput (getF s vref) col = false := by
      revert hinv
      cases invalidInput (getF s vref) col <;> simp
    have h1 : (getF s vref).rows.isEmpty = false := by
      revert hinv'
      unfold invalidInput
      cases (getF s vref).rows.isEmpty <;> simp
    have h2 : (getF s vref).cols.contains col = true := by
      revert hinv'
      unfold invalidInput
      cases hc : (getF s vref).cols.contains col <;> simp
    have hlen : s.length < (s ++ [getF s vref]).length := by simp
    by_cases hW : totalWeight col (getF s vref) = 0
    · rw [calc_allocation_st_zero total s vref col hinv' hclean hW,
        calculate_allocation_zero total (getF s vref) col h1 h2 hW]
      refine ⟨?_, ?_, rfl⟩
      · rw [getF_set_ne _ _ _ _ hvne, getF_append_lt s _ vref hv]
      · rw [getF_set_self _ _ _ hlen, addAllocZero_after_weight]
    · rw [calc_allocation_st_pos total s vref col hinv' hclean hW,
        calculate_allocation_pos total (getF s vref) col h1 h2 hW]
      refine ⟨?_, ?_, rfl⟩
      · rw [getF_set_ne _ _ _ _ hvne, getF_append_lt s _ vref hv]
      · rw [getF_set_self _ _ _ hlen,
          addAllocAmt_after_weight total _ col _ hclean]

/-- Witness for C9 on a store holding the two-row frame `exF3`. -/
theorem C9_caller_frame_unchanged_witness :
    (0 < exStore.length ∧
      ∀ r ∈ (getF exStore 0).rows, List.lookup weightCol r = none) ∧
    (getF (calc_allocation_st 1000 exStore 0 "P").1 0 = getF exStore 0 ∧
     getF (calc_allocation_st 1000 exStore 0 "P").1
       (calc_allocation_st 1000 exStore 0 "P").2.1 =
       (calculate_allocation 1000 (getF exStore 0) "P").1 ∧
     (calc_allocation_st 1000 exStore 0 "P").2.2 =
       (calculate_allocation 1000 (getF exStore 0) "P").2) :=
  ⟨⟨by norm_num [exStore], by decide⟩,
   C9_caller_frame_unchanged 1000 exStore 0 "P" (by norm_num [exStore])
     (by decide)⟩

end IFRI
